import Mathlib

/-!
# Verification of `metrics.py` (ranked-retrieval evaluation metrics)

Shallow embedding of the metric functions of `src/metrics.py`:
`precision_at_k`, `precision_at_k_wrapper`, `average_precision`,
`mean_average_precision`, `geometric_mean_average_precision` and
`kendall_tau`, together with theorems settling the specification claims.

Modelling conventions:
* Python/numpy numbers are modelled exactly: finite values as `ℚ` (or `ℝ`
  where the source applies `np.log`/`np.exp`), and the IEEE special values
  `inf`, `-inf`, `nan` as extra constructors of a dedicated value type.
  Floating-point rounding is out of scope; arithmetic is exact.
* Python `assert` statements become `Except MetricError` results; a passing
  computation is `Except.ok`.
* numpy operations used by the source are modelled one-for-one: `np.mean`
  of a nonempty slice is sum/length (of an empty list it is `nan`),
  `np.sum` of an empty list is `0`, division of a finite float by the
  integer `0` yields `inf`/`-inf`/`nan` according to the sign of the
  numerator (a runtime warning, not an exception), `np.log 0 = -inf`
  (the warning being suppressed by `np.errstate(divide='ignore')` in the
  source), `np.log` of a negative number is `nan`, and `np.exp (-inf) = 0`.
-/

/-- The failures raised by the `assert` statements of `metrics.py`:
`"Invalid depth k."` in `precision_at_k`, and the two list assertions of
`kendall_tau` (`"Length of the ranked lists must be identical."` and
`"Ranked lists must contain identical elements."`). -/
inductive MetricError where
  | invalidDepth
  | lengthMismatch
  | setMismatch
deriving DecidableEq, Repr

deriving instance DecidableEq for Except

/-- A Python/numpy floating value with an exact finite part:
a finite rational, `inf`, `-inf`, or `nan`. -/
inductive PyFloat where
  | val (q : ℚ)
  | inf
  | negInf
  | nan
deriving DecidableEq, Repr

/-- IEEE addition on `PyFloat` (used by `np.sum`/`np.mean` over floats). -/
def PyFloat.add : PyFloat → PyFloat → PyFloat
  | .nan, _ => .nan
  | _, .nan => .nan
  | .inf, .negInf => .nan
  | .negInf, .inf => .nan
  | .inf, _ => .inf
  | _, .inf => .inf
  | .negInf, _ => .negInf
  | _, .negInf => .negInf
  | .val a, .val b => .val (a + b)

/-- `np.sum` over a list of floats (left-to-right from `0.0`). -/
def npsumPF (xs : List PyFloat) : PyFloat := xs.foldl PyFloat.add (.val 0)

/-- Division of a float by a positive count (used by `np.mean`). -/
def PyFloat.divCount : PyFloat → ℕ → PyFloat
  | .val q, n => .val (q / n)
  | .inf, _ => .inf
  | .negInf, _ => .negInf
  | .nan, _ => .nan

/-- `np.mean` over a list of floats: `nan` on the empty list
(numpy emits a "Mean of empty slice" warning and returns `nan`),
otherwise the sum divided by the length. -/
def npmeanPF (xs : List PyFloat) : PyFloat :=
  if xs.isEmpty then .nan else (npsumPF xs).divCount xs.length

/-- `np.mean` of a nonempty list of exact numbers: sum divided by length.
Every call site guards nonemptiness (for `precision_at_k` the depth
assertion gives `k ≥ 1`). -/
def npmeanQ (xs : List ℚ) : ℚ := xs.sum / xs.length

/-- Division of a finite float sum by a Python integer, as numpy performs
it: for a zero divisor the result is the IEEE special value matching the
numerator's sign (numpy warns but does not raise). -/
def npdiv (s : ℚ) (R : ℤ) : PyFloat :=
  if R = 0 then (if 0 < s then .inf else if s < 0 then .negInf else .nan)
  else .val (s / R)

/-- Left-to-right effectful map over a list, as a Python list
comprehension evaluates: the first failing element aborts the whole
computation. -/
def exceptMap (f : α → Except MetricError β) : List α → Except MetricError (List β)
  | [] => .ok []
  | a :: l => do
    let b ← f a
    let bs ← exceptMap f l
    pure (b :: bs)

/-- `precision_at_k(rel, k)` from `metrics.py`:
asserts `k >= 1 and k <= len(rel)` (else `AssertionError "Invalid depth k."`),
then returns `np.mean(rel[:k])`. -/
def precision_at_k (rel : List ℚ) (k : ℤ) : Except MetricError ℚ :=
  if 1 ≤ k ∧ k ≤ (rel.length : ℤ) then
    .ok (npmeanQ (rel.take k.toNat))
  else .error .invalidDepth

/-- `precision_at_k_wrapper(rel, k)` from `metrics.py`: when `k > len(rel)`
it concatenates `np.zeros(k - len(rel))` onto `rel`, then delegates to
`precision_at_k`. -/
def precision_at_k_wrapper (rel : List ℚ) (k : ℤ) : Except MetricError ℚ :=
  if (rel.length : ℤ) < k then
    precision_at_k (rel ++ List.replicate (k - (rel.length : ℤ)).toNat 0) k
  else
    precision_at_k rel k

/-- The exact numeric value computed by `average_precision(rel, R)`
before the final division: the precisions at the relevant ranks
(`[precision_at_k(rel, k) for k in np.arange(1, N+1) if rel[k-1]]`),
summed, then divided by `R`.  This is the finite value the function
returns whenever `R ≠ 0`. -/
def averagePrecisionQ (rel : List ℚ) (R : ℤ) : ℚ :=
  ((((List.range rel.length).filter (fun i => rel.getD i 0 ≠ 0)).map
      (fun i => npmeanQ (rel.take (i + 1)))).sum) / R

/-- `average_precision(rel, num_rel_docs)` from `metrics.py`:
`precisions = [precision_at_k(rel, k) for k in np.arange(1, N+1) if rel[k-1]]`,
then `np.sum(precisions) / num_rel_docs`.  The function performs no
validation of `num_rel_docs`; division by `0` produces an IEEE special
value, not an error. -/
def average_precision (rel : List ℚ) (num_rel_docs : ℤ) :
    Except MetricError PyFloat := do
  let precisions ← exceptMap (fun (i : ℕ) => precision_at_k rel ((i : ℤ) + 1))
    ((List.range rel.length).filter (fun i => rel.getD i 0 ≠ 0))
  pure (npdiv precisions.sum num_rel_docs)

/-- `mean_average_precision(rels)` from `metrics.py`: the element-wise
average precisions, then `np.mean` of the resulting float list. -/
def mean_average_precision (rels : List (List ℚ × ℤ)) :
    Except MetricError PyFloat := do
  let avps ← exceptMap (fun p => average_precision p.1 p.2) rels
  pure (npmeanPF avps)

/-- A numpy floating value whose finite part is a real number, for the
log/exp stage of `geometric_mean_average_precision` (where `np.log` of a
rational is irrational). -/
inductive RFloat where
  | val (x : ℝ)
  | inf
  | negInf
  | nan

/-- IEEE addition on `RFloat`. -/
noncomputable def RFloat.add : RFloat → RFloat → RFloat
  | .nan, _ => .nan
  | _, .nan => .nan
  | .inf, .negInf => .nan
  | .negInf, .inf => .nan
  | .inf, _ => .inf
  | _, .inf => .inf
  | .negInf, _ => .negInf
  | _, .negInf => .negInf
  | .val a, .val b => .val (a + b)

/-- `np.sum` over a list of `RFloat`s. -/
noncomputable def npsumRF (xs : List RFloat) : RFloat := xs.foldl RFloat.add (.val 0)

/-- Division of an `RFloat` by a positive count (used by `np.mean`). -/
noncomputable def RFloat.divCount : RFloat → ℕ → RFloat
  | .val x, n => .val (x / n)
  | .inf, _ => .inf
  | .negInf, _ => .negInf
  | .nan, _ => .nan

/-- `np.mean` over a list of `RFloat`s. -/
noncomputable def npmeanRF (xs : List RFloat) : RFloat :=
  if xs.isEmpty then .nan else (npsumRF xs).divCount xs.length

/-- `np.log` on a float: `np.log 0 = -inf` (the divide-warning is
suppressed by `np.errstate(divide='ignore')` in the source), `np.log` of
a negative number is `nan` (an invalid-value warning, not an exception),
`np.log inf = inf`, `np.log (-inf) = np.log nan = nan`. -/
noncomputable def nplog : PyFloat → RFloat
  | .val q => if q < 0 then .nan else if q = 0 then .negInf else .val (Real.log q)
  | .inf => .inf
  | .negInf => .nan
  | .nan => .nan

/-- `np.exp` on a float: `np.exp (-inf) = 0`. -/
noncomputable def npexp : RFloat → RFloat
  | .val x => .val (Real.exp x)
  | .inf => .inf
  | .negInf => .val 0
  | .nan => .nan

/-- `geometric_mean_average_precision(rels)` from `metrics.py`:
`avps = [np.log(average_precision(rel, n)) for rel, n in rels]` computed
under `np.errstate(divide='ignore')`, then `np.exp(np.mean(avps))`. -/
noncomputable def geometric_mean_average_precision
    (rels : List (List ℚ × ℤ)) : Except MetricError RFloat := do
  let avps ← exceptMap (fun p => average_precision p.1 p.2) rels
  pure (npexp (npmeanRF (avps.map nplog)))

/-- The dictionary built by the loop
`for k in np.arange(N): dict[rank[k]] = k` of `kendall_tau`: repeated
assignment leaves each key mapped to the *last* position at which it
occurs (`0` for a key that never occurs; only queried on members). -/
def lastIdx [DecidableEq α] (l : List α) (x : α) : ℕ :=
  l.enum.foldl (fun acc p => if p.2 = x then p.1 else acc) 0

/-- The aligned rank vector `[rank for _, rank in sorted(dict.items())]`:
the dictionary's keys are the distinct elements of the list, traversed in
sorted order, each mapped to its last position in the list. -/
def rankVector [LinearOrder α] (l : List α) : List ℕ :=
  (l.toFinset.sort (· ≤ ·)).map (fun x => lastIdx l x)

/-- Modelled from the spec (§4.7): `scipy.stats.kendalltau`, external to
the repository.  The coefficient counts concordant versus discordant index
pairs, normalized by the number `n(n-1)/2` of pairs (the inputs produced
by `kendall_tau` have no ties, so the tau-b tie correction is trivial; `ℚ`
division by `0` when `n < 2` stands in for scipy's `nan` there).  The spec
fixes no formula for the accompanying two-sided significance estimate
beyond its existence, so the p-value component is modelled as an
unspecified constant `0`; no claim constrains its value. -/
def kendalltau (A B : List ℕ) : ℚ × ℚ :=
  let n := A.length
  let pairs := (List.range n).flatMap
    (fun i => ((List.range n).filter (fun j => i < j)).map (fun j => (i, j)))
  let nc := pairs.countP
    (fun p => 0 < ((A.getD p.1 0 : ℤ) - (A.getD p.2 0 : ℤ))
                * ((B.getD p.1 0 : ℤ) - (B.getD p.2 0 : ℤ)))
  let nd := pairs.countP
    (fun p => ((A.getD p.1 0 : ℤ) - (A.getD p.2 0 : ℤ))
                * ((B.getD p.1 0 : ℤ) - (B.getD p.2 0 : ℤ)) < 0)
  (((nc : ℚ) - (nd : ℚ)) / ((n * (n - 1) : ℚ) / 2), 0)

/-- `kendall_tau(rankA, rankB)` from `metrics.py`: asserts equal lengths
(`"Length of the ranked lists must be identical."`), then equal element
sets (`"Ranked lists must contain identical elements."`); builds the two
position dictionaries, sorts their items by identifier to obtain aligned
rank vectors, and hands them to `scipy.stats.kendalltau`. -/
def kendall_tau [LinearOrder α] (rankA rankB : List α) :
    Except MetricError (ℚ × ℚ) :=
  if rankA.length ≠ rankB.length then .error .lengthMismatch
  else if rankA.toFinset ≠ rankB.toFinset then .error .setMismatch
  else .ok (kendalltau (rankVector rankA) (rankVector rankB))

/-- The worked example of the spec (§8) and of `metrics.py`'s test block,
extended to length 10 as the spec states it. -/
def ex10 : List ℚ := [1, 1, 0, 0, 1, 0, 0, 1, 0, 0]

/-! ## Shared lemmas -/

lemma exceptMap_ok (f : α → Except MetricError β) (g : α → β) :
    ∀ l : List α, (∀ a ∈ l, f a = .ok (g a)) → exceptMap f l = .ok (l.map g)
  | [], _ => rfl
  | a :: l, h => by
    have ha := h a (List.mem_cons_self a l)
    have hl := exceptMap_ok f g l (fun b hb => h b (List.mem_cons_of_mem a hb))
    simp [exceptMap, ha, hl, Bind.bind, Except.bind, Pure.pure, Except.pure]

lemma precision_at_k_succ (rel : List ℚ) (i : ℕ) (h : i < rel.length) :
    precision_at_k rel ((i : ℤ) + 1) = .ok (npmeanQ (rel.take (i + 1))) := by
  have h1 : (1 : ℤ) ≤ (i : ℤ) + 1 := by omega
  have h2 : (i : ℤ) + 1 ≤ (rel.length : ℤ) := by exact_mod_cast h
  have h3 : ((i : ℤ) + 1).toNat = i + 1 := by omega
  unfold precision_at_k
  rw [if_pos ⟨h1, h2⟩, h3]

lemma average_precision_run (rel : List ℚ) (R : ℤ) :
    average_precision rel R =
      .ok (npdiv ((((List.range rel.length).filter
          (fun i => rel.getD i 0 ≠ 0)).map
          (fun i => npmeanQ (rel.take (i + 1)))).sum) R) := by
  unfold average_precision
  rw [exceptMap_ok _ (fun i => npmeanQ (rel.take (i + 1))) _ ?_]
  · rfl
  · intro i hi
    have hmem : i ∈ List.range rel.length := (List.mem_filter.1 hi).1
    exact precision_at_k_succ rel i (List.mem_range.1 hmem)

lemma average_precision_eq (rel : List ℚ) (R : ℤ) (hR : R ≠ 0) :
    average_precision rel R = .ok (.val (averagePrecisionQ rel R)) := by
  rw [average_precision_run rel R]
  unfold npdiv averagePrecisionQ
  rw [if_neg hR]

lemma filter_map_sum_range (g : ℕ → ℚ) (p : ℕ → Bool) :
    ∀ N : ℕ, (((List.range N).filter p).map g).sum
      = ∑ j ∈ Finset.range N, if p j then g j else 0
  | 0 => rfl
  | N + 1 => by
    rw [List.range_succ, List.filter_append, List.map_append, List.sum_append,
      Finset.sum_range_succ, filter_map_sum_range g p N]
    by_cases hp : p N <;> simp [hp]

lemma list_sum_nonneg_all_zero :
    ∀ l : List ℚ, (∀ x ∈ l, 0 ≤ x) → l.sum = 0 → ∀ x ∈ l, x = 0
  | [], _, _, x, hx => absurd hx (List.not_mem_nil x)
  | a :: l, hnn, hsum, x, hx => by
    have ha : 0 ≤ a := hnn a (List.mem_cons_self a l)
    have hl : 0 ≤ l.sum :=
      List.sum_nonneg (fun y hy => hnn y (List.mem_cons_of_mem a hy))
    have hsum' : a + l.sum = 0 := by simpa using hsum
    have ha0 : a = 0 := by linarith
    have hl0 : l.sum = 0 := by linarith
    rcases List.mem_cons.1 hx with rfl | hx'
    · exact ha0
    · exact list_sum_nonneg_all_zero l
        (fun y hy => hnn y (List.mem_cons_of_mem a hy)) hl0 x hx'

lemma npsumPF_vals (l : List ℚ) :
    ∀ a : ℚ, (l.map PyFloat.val).foldl PyFloat.add (.val a) = .val (a + l.sum) := by
  induction l with
  | nil => intro a; simp [PyFloat.add]
  | cons b t ih =>
    intro a
    simp only [List.map_cons, List.foldl_cons, List.sum_cons]
    rw [show PyFloat.add (.val a) (.val b) = .val (a + b) from rfl, ih (a + b)]
    ring_nf

lemma npmeanPF_vals (l : List ℚ) (hne : l ≠ []) :
    npmeanPF (l.map PyFloat.val) = .val (l.sum / l.length) := by
  unfold npmeanPF npsumPF
  rw [if_neg (by simpa using hne), npsumPF_vals l 0]
  simp [PyFloat.divCount]

lemma npsumRF_vals (l : List ℝ) :
    ∀ a : ℝ, (l.map RFloat.val).foldl RFloat.add (.val a) = .val (a + l.sum) := by
  induction l with
  | nil => intro a; simp [RFloat.add]
  | cons b t ih =>
    intro a
    simp only [List.map_cons, List.foldl_cons, List.sum_cons]
    rw [show RFloat.add (.val a) (.val b) = .val (a + b) from rfl, ih (a + b)]
    ring_nf

lemma npsumRF_negInf_absorb :
    ∀ l : List RFloat, (∀ x ∈ l, (∃ q, x = .val q) ∨ x = .negInf) →
      l.foldl RFloat.add .negInf = .negInf
  | [], _ => rfl
  | x :: l, h => by
    have hx := h x (List.mem_cons_self x l)
    have hl := npsumRF_negInf_absorb l (fun y hy => h y (List.mem_cons_of_mem x hy))
    rcases hx with ⟨q, rfl⟩ | rfl
    · simpa [RFloat.add] using hl
    · simpa [RFloat.add] using hl

lemma npsumRF_negInf_mem :
    ∀ l : List RFloat, (∀ x ∈ l, (∃ q, x = .val q) ∨ x = .negInf) →
      (∃ x ∈ l, x = .negInf) →
      ∀ a : ℝ, l.foldl RFloat.add (.val a) = .negInf
  | [], _, hex, _ => by simp at hex
  | x :: l, h, hex, a => by
    have hl : ∀ y ∈ l, (∃ q, y = .val q) ∨ y = .negInf :=
      fun y hy => h y (List.mem_cons_of_mem x hy)
    rcases h x (List.mem_cons_self x l) with ⟨q, rfl⟩ | rfl
    · have hex' : ∃ y ∈ l, y = .negInf := by
        rcases hex with ⟨y, hy, hyn⟩
        rcases List.mem_cons.1 hy with rfl | hy'
        · exact absurd hyn (by simp)
        · exact ⟨y, hy', hyn⟩
      simpa [RFloat.add] using npsumRF_negInf_mem l hl hex' (a + q)
    · simpa [RFloat.add] using npsumRF_negInf_absorb l hl

lemma exp_mean_log_le_mean (l : List ℝ) (hne : l ≠ []) (hpos : ∀ x ∈ l, 0 < x) :
    Real.exp ((l.map Real.log).sum / l.length) ≤ l.sum / l.length ∧
    (Real.exp ((l.map Real.log).sum / l.length) = l.sum / l.length →
      ∀ x ∈ l, ∀ y ∈ l, x = y) := by
  have hn : 0 < l.length := List.length_pos.2 hne
  have hnR : ((l.length : ℝ)) ≠ 0 := by positivity
  have hmap : (l.map Real.log).sum = ∑ i : Fin l.length, Real.log (l.get i) := by
    conv_lhs => rw [← List.ofFn_get l, List.map_ofFn, List.sum_ofFn]
    rfl
  have hsum : l.sum = ∑ i : Fin l.length, l.get i := by
    conv_lhs => rw [← List.ofFn_get l, List.sum_ofFn]
  have h₀ : ∀ i ∈ (Finset.univ : Finset (Fin l.length)),
      (0 : ℝ) ≤ ((l.length : ℝ))⁻¹ := fun _ _ => by positivity
  have h₀p : ∀ i ∈ (Finset.univ : Finset (Fin l.length)),
      (0 : ℝ) < ((l.length : ℝ))⁻¹ := fun _ _ => by positivity
  have h₁ : ∑ _i ∈ (Finset.univ : Finset (Fin l.length)),
      ((l.length : ℝ))⁻¹ = 1 := by
    rw [Finset.sum_const, Finset.card_univ, Fintype.card_fin, nsmul_eq_mul]
    field_simp
  have hmem : ∀ i ∈ (Finset.univ : Finset (Fin l.length)),
      Real.log (l.get i) ∈ (Set.univ : Set ℝ) := fun _ _ => Set.mem_univ _
  have hA : ∑ i : Fin l.length, ((l.length : ℝ))⁻¹ • Real.log (l.get i)
      = (l.map Real.log).sum / l.length := by
    simp only [smul_eq_mul, ← Finset.mul_sum]
    rw [← hmap]; ring
  have hB : ∑ i : Fin l.length, ((l.length : ℝ))⁻¹ • Real.exp (Real.log (l.get i))
      = l.sum / l.length := by
    rw [Finset.sum_congr rfl (fun i _ => by
      rw [Real.exp_log (hpos _ (List.get_mem l i.1 i.2))])]
    simp only [smul_eq_mul, ← Finset.mul_sum]
    rw [← hsum]; ring
  constructor
  · have key := ConvexOn.map_sum_le convexOn_exp h₀ h₁ hmem
    rwa [hA, hB] at key
  · intro heq x hx y hy
    have h_eq' : ∑ i : Fin l.length,
        ((l.length : ℝ))⁻¹ • Real.exp (Real.log (l.get i))
        ≤ Real.exp (∑ i : Fin l.length,
            ((l.length : ℝ))⁻¹ • Real.log (l.get i)) := by
      rw [hA, hB, heq]
    have hpk := StrictConvexOn.eq_of_le_map_sum strictConvexOn_exp h₀p h₁ hmem h_eq'
    obtain ⟨i, hi⟩ := List.mem_iff_get.1 hx
    obtain ⟨j, hj⟩ := List.mem_iff_get.1 hy
    have hlog : Real.log (l.get i) = Real.log (l.get j) :=
      hpk (Finset.mem_univ i) (Finset.mem_univ j)
    rw [← hi, ← hj]
    exact Real.log_injOn_pos (Set.mem_Ioi.2 (hpos _ (hi ▸ hx)))
      (Set.mem_Ioi.2 (hpos _ (hj ▸ hy))) hlog

/-! ## Claim theorems -/

/-- C1: for every binary relevance judgment `rel` of length `N` and every
`num_rel_docs` `R > 0`, `average_precision rel R` succeeds with the sum,
over the rank positions `j+1` (`j < N`) whose entry is `1`, of the
precision at that rank, divided by `R`; and when `rel` contains no `1`s
the result is `0` for every such `R`. -/
theorem average_precision_sum_div (rel : List ℚ) (R : ℤ) (hR : 0 < R)
    (hbin : ∀ x ∈ rel, x = 0 ∨ x = 1) :
    average_precision rel R = .ok (.val
      ((∑ j ∈ Finset.range rel.length,
        if rel.getD j 0 = 1 then npmeanQ (rel.take (j + 1)) else 0) / R)) ∧
    ((1 : ℚ) ∉ rel → average_precision rel R = .ok (.val 0)) := by
  have hR0 : R ≠ 0 := by omega
  have hmem : ∀ j < rel.length, rel.getD j 0 ∈ rel := by
    intro j hj
    rw [List.getD_eq_getElem rel 0 hj]
    exact List.getElem_mem hj
  constructor
  · rw [average_precision_eq rel R hR0]
    unfold averagePrecisionQ
    rw [filter_map_sum_range]
    have hcong : (∑ j ∈ Finset.range rel.length,
          if (fun i => decide (rel.getD i 0 ≠ 0)) j
          then npmeanQ (rel.take (j + 1)) else 0)
        = ∑ j ∈ Finset.range rel.length,
          if rel.getD j 0 = 1 then npmeanQ (rel.take (j + 1)) else 0 := by
      apply Finset.sum_congr rfl
      intro j hj
      rcases hbin _ (hmem j (Finset.mem_range.1 hj)) with h0 | h1
      · rw [List.getD_eq_getElem?_getD] at h0
        simp [h0]
      · rw [List.getD_eq_getElem?_getD] at h1
        simp [h1]
    rw [hcong]
  · intro h1
    rw [average_precision_eq rel R hR0]
    have hfe : (List.range rel.length).filter
        (fun i => rel.getD i 0 ≠ 0) = [] := by
      rw [List.filter_eq_nil_iff]
      intro i hi
      rcases hbin _ (hmem i (List.mem_range.1 hi)) with h0 | h1'
      · rw [List.getD_eq_getElem?_getD] at h0
        simp [h0]
      · exact absurd (h1' ▸ hmem i (List.mem_range.1 hi)) h1
    unfold averagePrecisionQ
    rw [hfe]
    simp

/-- C1 witness: the general theorem applied to the worked example with
`R = 10`. -/
theorem average_precision_sum_div_witness :
    (0 : ℤ) < 10 ∧ (∀ x ∈ ex10, x = 0 ∨ x = 1) ∧
    (average_precision ex10 10 = .ok (.val
      ((∑ j ∈ Finset.range ex10.length,
        if ex10.getD j 0 = 1 then npmeanQ (ex10.take (j + 1)) else 0) / 10)) ∧
    ((1 : ℚ) ∉ ex10 → average_precision ex10 10 = .ok (.val 0))) :=
  ⟨by decide, by decide, average_precision_sum_div ex10 10 (by decide) (by decide)⟩

/-- C2 counterexample: on `rel = [1,1,0,0,1,0,0,1,0,0]` with `R = 10`,
`average_precision` returns exactly `31/100 = 0.31`, which is not within
`0.1` of the spec's claimed value `0.558`. -/
theorem average_precision_ex10_not_spec_value :
    average_precision ex10 10 = .ok (.val (31 / 100)) ∧
    (1 : ℚ) / 10 < 558 / 1000 - 31 / 100 := by
  constructor
  · rw [average_precision_run]
    norm_num [ex10, npdiv, npmeanQ, List.range_succ]
  · norm_num

/-- C2 amended: `average_precision ex10 10` equals the sum of the
precisions at the relevant ranks `{1, 2, 5, 8}` divided by `10`, which is
exactly `31/100 = 0.31` (not `≈ 0.558`). -/
theorem average_precision_ex10_value :
    average_precision ex10 10 = .ok (.val
      ((npmeanQ (ex10.take 1) + npmeanQ (ex10.take 2)
        + npmeanQ (ex10.take 5) + npmeanQ (ex10.take 8)) / 10)) ∧
    average_precision ex10 10 = .ok (.val (31 / 100)) := by
  constructor
  · rw [average_precision_run]
    norm_num [ex10, npdiv, npmeanQ, List.range_succ]
  · rw [average_precision_run]
    norm_num [ex10, npdiv, npmeanQ, List.range_succ]

/-- C3 counterexample: calls with a non-positive normalizer raise no
error at all: `average_precision [1] 0` returns the IEEE value `inf`
(numpy's divide-by-zero warning is not an exception), and
`average_precision [1] (-1)` returns the finite value `-1`; neither is an
`Except.error`. -/
theorem average_precision_zero_normalizer_no_error :
    average_precision [(1 : ℚ)] 0 = .ok .inf ∧
    average_precision [(1 : ℚ)] (-1) = .ok (.val (-1)) := by
  constructor
  · rw [average_precision_run]
    norm_num [npdiv, npmeanQ, List.range_succ]
  · rw [average_precision_run]
    norm_num [npdiv, npmeanQ, List.range_succ]

/-- C3 amended: `average_precision` performs no validation of its
normalizer: for every `rel` and every `R ≤ 0` the call still succeeds,
returning the (possibly non-finite) quotient of the precision sum by `R`
rather than failing with an `InvalidNormalizer` error. -/
theorem average_precision_no_normalizer_guard (rel : List ℚ) (R : ℤ)
    (_hR : R ≤ 0) : ∃ v, average_precision rel R = .ok v :=
  ⟨_, average_precision_run rel R⟩

/-- C3 amended witness: the amended theorem applied at `rel = [1]`,
`R = 0`. -/
theorem average_precision_no_normalizer_guard_witness :
    (0 : ℤ) ≤ 0 ∧ ∃ v, average_precision [(1 : ℚ)] 0 = .ok v :=
  ⟨by decide, average_precision_no_normalizer_guard [(1 : ℚ)] 0 (by decide)⟩

/-- C4: `precision_at_k rel k` fails with the invalid-depth error exactly
when `k < 1` or `k > len(rel)`, and for `1 ≤ k ≤ len(rel)` it succeeds
with the arithmetic mean of the first `k` entries. -/
theorem precision_at_k_contract (rel : List ℚ) (k : ℤ) :
    (precision_at_k rel k = .error .invalidDepth
      ↔ (k < 1 ∨ (rel.length : ℤ) < k)) ∧
    (1 ≤ k → k ≤ (rel.length : ℤ) →
      precision_at_k rel k = .ok ((rel.take k.toNat).sum / (k : ℚ))) := by
  constructor
  · unfold precision_at_k
    by_cases h : 1 ≤ k ∧ k ≤ (rel.length : ℤ)
    · rw [if_pos h]
      constructor
      · intro he
        exact absurd he (by simp)
      · intro hor
        exact absurd hor (by omega)
    · rw [if_neg h]
      constructor
      · intro _
        omega
      · intro _
        rfl
  · intro h1 h2
    unfold precision_at_k
    rw [if_pos ⟨h1, h2⟩]
    unfold npmeanQ
    have hmin : (rel.take k.toNat).length = k.toNat := by
      rw [List.length_take]
      omega
    rw [hmin]
    have hcast : ((k.toNat : ℕ) : ℚ) = (k : ℚ) := by
      have : ((k.toNat : ℤ)) = k := Int.toNat_of_nonneg (by omega)
      exact_mod_cast this
    rw [hcast]

/-- C4 witness: the contract applied at concrete depths on the worked
example (`P@3 = 2/3`, `P@9 = 4/9`), and the failure cases at `k = 0` and
`k = 11`. -/
theorem precision_at_k_contract_witness :
    precision_at_k ex10 3 = .ok (2 / 3) ∧
    precision_at_k ex10 9 = .ok (4 / 9) ∧
    precision_at_k ex10 0 = .error .invalidDepth ∧
    precision_at_k ex10 11 = .error .invalidDepth := by
  refine ⟨?_, ?_, ?_, ?_⟩
  · rw [(precision_at_k_contract ex10 3).2 (by decide) (by decide),
      show ((3 : ℤ)).toNat = 3 from rfl]
    norm_num [ex10]
  · rw [(precision_at_k_contract ex10 9).2 (by decide) (by decide),
      show ((9 : ℤ)).toNat = 9 from rfl]
    norm_num [ex10]
  · exact (precision_at_k_contract ex10 0).1.2 (by decide)
  · exact (precision_at_k_contract ex10 11).1.2 (by decide)

/-- C5: for every non-empty binary relevance judgment `rel` and every
depth `k` beyond its length, the wrapper equals `precision_at_k` on `rel`
zero-extended to length `k`, and the padded value is at most the precision
at the full judged depth. -/
theorem precision_at_k_wrapper_pad (rel : List ℚ) (k : ℤ)
    (hne : rel ≠ []) (hk : (rel.length : ℤ) < k)
    (hbin : ∀ x ∈ rel, x = 0 ∨ x = 1) :
    precision_at_k_wrapper rel k
      = precision_at_k (rel ++ List.replicate (k.toNat - rel.length) 0) k ∧
    ∃ q p : ℚ, precision_at_k_wrapper rel k = .ok q ∧
      precision_at_k rel (rel.length : ℤ) = .ok p ∧ q ≤ p := by
  have hlen : 0 < rel.length := List.length_pos.2 hne
  have hrepl : (k - (rel.length : ℤ)).toNat = k.toNat - rel.length := by omega
  have hpadlen : (rel ++ List.replicate (k.toNat - rel.length) 0).length
      = k.toNat := by
    rw [List.length_append, List.length_replicate]
    omega
  have hw : precision_at_k_wrapper rel k
      = precision_at_k (rel ++ List.replicate (k.toNat - rel.length) 0) k := by
    unfold precision_at_k_wrapper
    rw [if_pos hk, hrepl]
  refine ⟨hw, ?_⟩
  have hsum0 : (List.replicate (k.toNat - rel.length) (0 : ℚ)).sum = 0 := by
    simp
  have hnn : 0 ≤ rel.sum :=
    List.sum_nonneg (fun x hx => by rcases hbin x hx with h | h <;> simp [h])
  have hq : precision_at_k (rel ++ List.replicate (k.toNat - rel.length) 0) k
      = .ok (rel.sum / (k.toNat : ℚ)) := by
    unfold precision_at_k
    rw [if_pos ⟨by omega, by rw [hpadlen]; omega⟩]
    unfold npmeanQ
    rw [List.take_of_length_le (by rw [hpadlen]),
      List.sum_append, hsum0, add_zero, hpadlen]
  have hp : precision_at_k rel (rel.length : ℤ) = .ok (rel.sum / (rel.length : ℚ)) := by
    unfold precision_at_k
    rw [if_pos ⟨by omega, le_refl _⟩]
    unfold npmeanQ
    rw [show ((rel.length : ℤ)).toNat = rel.length from rfl, List.take_length]
  refine ⟨rel.sum / (k.toNat : ℚ), rel.sum / (rel.length : ℚ),
    hw.symm ▸ hq, hp, ?_⟩
  gcongr
  exact_mod_cast (by omega : rel.length ≤ k.toNat)

/-- C5 witness: the padding theorem at `rel = [1, 0]`, `k = 5`. -/
theorem precision_at_k_wrapper_pad_witness :
    ([(1 : ℚ), 0] ≠ []) ∧ (([(1 : ℚ), 0].length : ℤ) < 5) ∧
    (∀ x ∈ [(1 : ℚ), 0], x = 0 ∨ x = 1) ∧
    (precision_at_k_wrapper [(1 : ℚ), 0] 5
      = precision_at_k ([(1 : ℚ), 0] ++ List.replicate ((5 : ℤ).toNat - 2) 0) 5 ∧
    ∃ q p : ℚ, precision_at_k_wrapper [(1 : ℚ), 0] 5 = .ok q ∧
      precision_at_k [(1 : ℚ), 0] ([(1 : ℚ), 0].length : ℤ) = .ok p ∧ q ≤ p) :=
  ⟨by decide, by decide, by decide,
    precision_at_k_wrapper_pad [(1 : ℚ), 0] 5 (by decide) (by decide) (by decide)⟩

/-- C10: `mean_average_precision` on the empty batch raises no error:
it returns `np.mean` of an empty list, which is the quiet `nan` value
(numpy emits a mean-of-empty-slice warning, not an exception). -/
theorem mean_average_precision_empty :
    mean_average_precision [] = .ok .nan := rfl

/-- C8: the validation contract of `kendall_tau`: unequal lengths fail
with the length assertion, equal lengths with unequal identifier sets fail
with the set assertion, and when both checks pass a (coefficient, p-value)
pair is returned. -/
theorem kendall_tau_validation {α : Type} [LinearOrder α]
    (rankA rankB : List α) :
    (rankA.length ≠ rankB.length →
      kendall_tau rankA rankB = .error .lengthMismatch) ∧
    (rankA.length = rankB.length → rankA.toFinset ≠ rankB.toFinset →
      kendall_tau rankA rankB = .error .setMismatch) ∧
    (rankA.length = rankB.length → rankA.toFinset = rankB.toFinset →
      ∃ v : ℚ × ℚ, kendall_tau rankA rankB = .ok v) := by
  unfold kendall_tau
  refine ⟨fun h => by rw [if_pos h], fun h1 h2 => ?_, fun h1 h2 => ?_⟩
  · rw [if_neg (not_not.2 h1), if_pos h2]
  · rw [if_neg (not_not.2 h1), if_neg (not_not.2 h2)]
    exact ⟨_, rfl⟩

/-- C8 witness: the three branches of the validation contract at concrete
ranked lists. -/
theorem kendall_tau_validation_witness :
    kendall_tau [(0 : ℕ)] [0, 1] = .error .lengthMismatch ∧
    kendall_tau [(0 : ℕ), 1] [0, 2] = .error .setMismatch ∧
    ∃ v : ℚ × ℚ, kendall_tau [(0 : ℕ), 1] [1, 0] = .ok v :=
  ⟨(kendall_tau_validation [(0 : ℕ)] [0, 1]).1 (by decide),
    (kendall_tau_validation [(0 : ℕ), 1] [0, 2]).2.1 (by decide) (by decide),
    (kendall_tau_validation [(0 : ℕ), 1] [1, 0]).2.2 (by decide) (by decide)⟩

/-- C9 counterexample: `rankA = [0, 0, 1]` contains the identifier `0`
twice, yet `kendall_tau [0, 0, 1] [0, 1, 1]` passes both validation checks
(equal lengths, equal identifier sets) and computes a correlation result
instead of failing. -/
theorem kendall_tau_duplicates_not_rejected :
    1 < [(0 : ℕ), 0, 1].count 0 ∧
    kendall_tau [(0 : ℕ), 0, 1] [0, 1, 1] = .ok (1, 0) := by
  have hA : rankVector [(0 : ℕ), 0, 1] = [1, 2] := by
    unfold rankVector
    rw [show ([(0 : ℕ), 0, 1]).toFinset = insert 0 {1} from by decide,
      Finset.sort_insert _ (by decide) (by decide), Finset.sort_singleton]
    decide
  have hB : rankVector [(0 : ℕ), 1, 1] = [0, 2] := by
    unfold rankVector
    rw [show ([(0 : ℕ), 1, 1]).toFinset = insert 0 {1} from by decide,
      Finset.sort_insert _ (by decide) (by decide), Finset.sort_singleton]
    decide
  refine ⟨by decide, ?_⟩
  unfold kendall_tau
  rw [if_neg (by decide), if_neg (by decide), hA, hB]
  unfold kendalltau
  norm_num [List.range_succ]

/-- C9 amended: `kendall_tau` validates only the lengths and the
identifier sets of its inputs; duplicate identifiers within one list are
not themselves detected, so any pair with equal lengths and equal
identifier sets — duplicated or not — passes validation and a coefficient
is computed. -/
theorem kendall_tau_no_duplicate_check {α : Type} [LinearOrder α]
    (rankA rankB : List α) (h1 : rankA.length = rankB.length)
    (h2 : rankA.toFinset = rankB.toFinset) :
    ∃ v : ℚ × ℚ, kendall_tau rankA rankB = .ok v := by
  unfold kendall_tau
  rw [if_neg (not_not.2 h1), if_neg (not_not.2 h2)]
  exact ⟨_, rfl⟩

/-- C9 amended witness: the duplicated pair `[0,0,1]` / `[0,1,1]` passes
validation. -/
theorem kendall_tau_no_duplicate_check_witness :
    [(0 : ℕ), 0, 1].length = [(0 : ℕ), 1, 1].length ∧
    [(0 : ℕ), 0, 1].toFinset = [(0 : ℕ), 1, 1].toFinset ∧
    ∃ v : ℚ × ℚ, kendall_tau [(0 : ℕ), 0, 1] [0, 1, 1] = .ok v :=
  ⟨by decide, by decide,
    kendall_tau_no_duplicate_check [(0 : ℕ), 0, 1] [0, 1, 1] (by decide) (by decide)⟩

lemma mean_average_precision_run (rels : List (List ℚ × ℤ))
    (hfin : ∀ p ∈ rels, p.2 ≠ 0) :
    mean_average_precision rels = .ok (npmeanPF
      (rels.map (fun p => PyFloat.val (averagePrecisionQ p.1 p.2)))) := by
  unfold mean_average_precision
  rw [exceptMap_ok _ (fun p => PyFloat.val (averagePrecisionQ p.1 p.2)) rels
    (fun p hp => average_precision_eq p.1 p.2 (hfin p hp))]
  rfl

lemma mean_average_precision_value (rels : List (List ℚ × ℤ))
    (hne : rels ≠ []) (hfin : ∀ p ∈ rels, p.2 ≠ 0) :
    mean_average_precision rels = .ok (.val
      ((rels.map (fun p => averagePrecisionQ p.1 p.2)).sum / rels.length)) := by
  rw [mean_average_precision_run rels hfin,
    show rels.map (fun p => PyFloat.val (averagePrecisionQ p.1 p.2))
      = (rels.map (fun p => averagePrecisionQ p.1 p.2)).map PyFloat.val from
      (List.map_map _ _ _).symm,
    npmeanPF_vals _ (by simpa using hne)]
  rw [List.length_map]

lemma gmap_run (rels : List (List ℚ × ℤ)) (hfin : ∀ p ∈ rels, p.2 ≠ 0) :
    geometric_mean_average_precision rels = .ok (npexp (npmeanRF
      ((rels.map (fun p => PyFloat.val (averagePrecisionQ p.1 p.2))).map nplog))) := by
  unfold geometric_mean_average_precision
  rw [exceptMap_ok _ (fun p => PyFloat.val (averagePrecisionQ p.1 p.2)) rels
    (fun p hp => average_precision_eq p.1 p.2 (hfin p hp))]
  rfl

lemma npmeanRF_vals (l : List ℝ) (hne : l ≠ []) :
    npmeanRF (l.map RFloat.val) = .val (l.sum / l.length) := by
  unfold npmeanRF npsumRF
  rw [if_neg (by simpa using hne), npsumRF_vals l 0]
  simp [RFloat.divCount]

lemma nplog_val_pos (a : ℚ) (ha : 0 < a) :
    nplog (.val a) = .val (Real.log (a : ℝ)) := by
  have h1 : ¬ (a < 0) := not_lt.2 ha.le
  have h2 : a ≠ 0 := ha.ne.symm
  simp [nplog, h1, h2]

lemma nplog_val_zero : nplog (.val 0) = .negInf := by
  simp [nplog]

lemma gmap_value_zero (rels : List (List ℚ × ℤ))
    (hfin : ∀ p ∈ rels, p.2 ≠ 0)
    (hnonneg : ∀ p ∈ rels, 0 ≤ averagePrecisionQ p.1 p.2)
    (hzero : ∃ p ∈ rels, averagePrecisionQ p.1 p.2 = 0) :
    geometric_mean_average_precision rels = .ok (.val 0) := by
  rw [gmap_run rels hfin, List.map_map]
  set logs := rels.map (nplog ∘ fun p => PyFloat.val (averagePrecisionQ p.1 p.2))
    with hlogs
  have hshape : ∀ x ∈ logs, (∃ q, x = .val q) ∨ x = .negInf := by
    intro x hx
    obtain ⟨p, hp, rfl⟩ := List.mem_map.1 hx
    by_cases h0 : averagePrecisionQ p.1 p.2 = 0
    · right
      simp [Function.comp, h0, nplog_val_zero]
    · left
      refine ⟨Real.log ((averagePrecisionQ p.1 p.2 : ℚ) : ℝ), ?_⟩
      simp [Function.comp,
        nplog_val_pos _ (lt_of_le_of_ne (hnonneg p hp) (Ne.symm h0))]
  have hmem : ∃ x ∈ logs, x = .negInf := by
    obtain ⟨p, hp, hp0⟩ := hzero
    exact ⟨_, List.mem_map_of_mem _ hp, by simp [Function.comp, hp0, nplog_val_zero]⟩
  have hlne : logs ≠ [] := by
    obtain ⟨x, hx, _⟩ := hmem
    exact List.ne_nil_of_mem hx
  unfold npmeanRF npsumRF
  rw [if_neg (by simpa using hlne), npsumRF_negInf_mem logs hshape hmem 0]
  rfl

lemma gmap_value_pos (rels : List (List ℚ × ℤ))
    (hne : rels ≠ []) (hfin : ∀ p ∈ rels, p.2 ≠ 0)
    (hpos : ∀ p ∈ rels, 0 < averagePrecisionQ p.1 p.2) :
    geometric_mean_average_precision rels = .ok (.val (Real.exp
      ((rels.map (fun p => Real.log ((averagePrecisionQ p.1 p.2 : ℚ) : ℝ))).sum
        / rels.length))) := by
  rw [gmap_run rels hfin, List.map_map]
  have hlogs : rels.map (nplog ∘ fun p => PyFloat.val (averagePrecisionQ p.1 p.2))
      = (rels.map (fun p => Real.log ((averagePrecisionQ p.1 p.2 : ℚ) : ℝ))).map
          RFloat.val := by
    rw [List.map_map]
    apply List.map_congr_left
    intro p hp
    simp [Function.comp, nplog_val_pos _ (hpos p hp)]
  rw [hlogs, npmeanRF_vals _ (by simpa using hne), List.length_map]
  rfl

lemma list_ratCast_sum (xs : List ℚ) :
    (xs.map (fun q : ℚ => (q : ℝ))).sum = ((xs.sum : ℚ) : ℝ) := by
  induction xs with
  | nil => simp
  | cons a t ih =>
    rw [List.map_cons, List.sum_cons, List.sum_cons, ih]
    push_cast
    ring

/-- C7: for every non-empty batch of judged lists with valid normalizers
and non-negative average precisions, at least one of which has average
precision `0`, `geometric_mean_average_precision` raises no error and
returns `0`: the `log 0 = -inf` path is a suppressed warning that drives
the mean of logs to `-inf` and `exp` of it to `0`. -/
theorem gmap_zero_element (rels : List (List ℚ × ℤ)) (_hne : rels ≠ [])
    (hfin : ∀ p ∈ rels, p.2 ≠ 0)
    (hnonneg : ∀ p ∈ rels, 0 ≤ averagePrecisionQ p.1 p.2)
    (hzero : ∃ p ∈ rels, averagePrecisionQ p.1 p.2 = 0) :
    geometric_mean_average_precision rels = .ok (.val 0) :=
  gmap_value_zero rels hfin hnonneg hzero

/-- C7 witness: the batch `[([0], 1)]`, whose single element has average
precision `0`. -/
theorem gmap_zero_element_witness :
    ([([(0 : ℚ)], (1 : ℤ))] ≠ []) ∧
    (∀ p ∈ [([(0 : ℚ)], (1 : ℤ))], p.2 ≠ 0) ∧
    (∀ p ∈ [([(0 : ℚ)], (1 : ℤ))], 0 ≤ averagePrecisionQ p.1 p.2) ∧
    (∃ p ∈ [([(0 : ℚ)], (1 : ℤ))], averagePrecisionQ p.1 p.2 = 0) ∧
    geometric_mean_average_precision [([(0 : ℚ)], (1 : ℤ))] = .ok (.val 0) := by
  have hap : averagePrecisionQ [(0 : ℚ)] 1 = 0 := by
    norm_num [averagePrecisionQ, List.range_succ]
  refine ⟨by decide, by decide, ?_, ?_, ?_⟩
  · intro p hp
    rw [List.mem_singleton.1 hp]
    norm_num [hap]
  · exact ⟨([(0 : ℚ)], (1 : ℤ)), List.mem_singleton.2 rfl, hap⟩
  · exact gmap_zero_element [([(0 : ℚ)], (1 : ℤ))] (by decide) (by decide)
      (fun p hp => by rw [List.mem_singleton.1 hp]; norm_num [hap])
      ⟨([(0 : ℚ)], (1 : ℤ)), List.mem_singleton.2 rfl, hap⟩

/-- C6: for every non-empty batch with valid normalizers whose
element-wise average precisions are all non-negative, the geometric mean
average precision is at most the mean average precision, and they are
equal only when all the element-wise average precisions coincide. -/
theorem gmap_le_map (rels : List (List ℚ × ℤ)) (hne : rels ≠ [])
    (hfin : ∀ p ∈ rels, p.2 ≠ 0)
    (hnonneg : ∀ p ∈ rels, 0 ≤ averagePrecisionQ p.1 p.2) :
    ∃ (g : ℝ) (m : ℚ),
      geometric_mean_average_precision rels = .ok (.val g) ∧
      mean_average_precision rels = .ok (.val m) ∧
      g ≤ (m : ℝ) ∧
      (g = (m : ℝ) → ∀ p ∈ rels, ∀ r ∈ rels,
        averagePrecisionQ p.1 p.2 = averagePrecisionQ r.1 r.2) := by
  have hm := mean_average_precision_value rels hne hfin
  set avps := rels.map (fun p => averagePrecisionQ p.1 p.2) with havps
  have havpsne : avps ≠ [] := by simpa [havps] using hne
  have hnn : ∀ a ∈ avps, 0 ≤ a := by
    intro a ha
    obtain ⟨p, hp, rfl⟩ := List.mem_map.1 ha
    exact hnonneg p hp
  by_cases hz : ∃ p ∈ rels, averagePrecisionQ p.1 p.2 = 0
  · refine ⟨0, avps.sum / rels.length,
      gmap_value_zero rels hfin hnonneg hz, hm, ?_, ?_⟩
    · have h1 : (0 : ℚ) ≤ avps.sum / rels.length :=
        div_nonneg (List.sum_nonneg hnn) (by positivity)
      exact_mod_cast h1
    · intro h0 p hp r hr
      have hq0 : avps.sum / ((rels.length : ℕ) : ℚ) = 0 := by exact_mod_cast h0.symm
      have hsum0 : avps.sum = 0 := by
        rcases div_eq_zero_iff.1 hq0 with h | h
        · exact h
        · have hlenpos : 0 < rels.length := List.length_pos.2 hne
          exact absurd h (by positivity)
      have hall := list_sum_nonneg_all_zero avps hnn hsum0
      rw [hall _ (List.mem_map_of_mem _ hp), hall _ (List.mem_map_of_mem _ hr)]
  · push_neg at hz
    have hpos : ∀ p ∈ rels, 0 < averagePrecisionQ p.1 p.2 :=
      fun p hp => lt_of_le_of_ne (hnonneg p hp) (Ne.symm (hz p hp))
    have hg := gmap_value_pos rels hne hfin hpos
    set l : List ℝ := avps.map (fun q : ℚ => (q : ℝ)) with hl
    have hlne : l ≠ [] := by simpa [hl] using havpsne
    have hlpos : ∀ x ∈ l, 0 < x := by
      intro x hx
      obtain ⟨a, ha, rfl⟩ := List.mem_map.1 hx
      obtain ⟨p, hp, rfl⟩ := List.mem_map.1 ha
      exact_mod_cast hpos p hp
    have hllen : l.length = rels.length := by simp [hl, havps]
    have hlogeq : rels.map (fun p => Real.log ((averagePrecisionQ p.1 p.2 : ℚ) : ℝ))
        = l.map Real.log := by
      rw [hl, havps, List.map_map, List.map_map]
      rfl
    have hlsum : l.sum = ((avps.sum : ℚ) : ℝ) := list_ratCast_sum avps
    have hcast : ((avps.sum / ((rels.length : ℕ) : ℚ) : ℚ) : ℝ) = l.sum / l.length := by
      push_cast
      rw [hlsum, hllen]
    obtain ⟨hle, heqc⟩ := exp_mean_log_le_mean l hlne hlpos
    refine ⟨Real.exp ((l.map Real.log).sum / l.length),
      avps.sum / rels.length, ?_, hm, ?_, ?_⟩
    · rw [hg, hlogeq, hllen]
    · rw [hcast]
      exact hle
    · intro hgeq p hp r hr
      have heq2 : Real.exp ((l.map Real.log).sum / l.length) = l.sum / l.length := by
        rw [hgeq, hcast]
      have hallr := heqc heq2
      have h1 : ((averagePrecisionQ p.1 p.2 : ℚ) : ℝ) ∈ l :=
        List.mem_map_of_mem _ (List.mem_map_of_mem _ hp)
      have h2 : ((averagePrecisionQ r.1 r.2 : ℚ) : ℝ) ∈ l :=
        List.mem_map_of_mem _ (List.mem_map_of_mem _ hr)
      exact_mod_cast hallr _ h1 _ h2

/-- C6 witness: the theorem applied to the two-element batch
`[([1], 1), ([0, 1], 2)]`, whose average precisions are `1` and `1/4`. -/
theorem gmap_le_map_witness :
    ([([(1 : ℚ)], (1 : ℤ)), ([0, 1], 2)] ≠ []) ∧
    (∀ p ∈ [([(1 : ℚ)], (1 : ℤ)), ([0, 1], 2)], p.2 ≠ 0) ∧
    (∀ p ∈ [([(1 : ℚ)], (1 : ℤ)), ([0, 1], 2)],
      0 ≤ averagePrecisionQ p.1 p.2) ∧
    (∃ (g : ℝ) (m : ℚ),
      geometric_mean_average_precision [([(1 : ℚ)], (1 : ℤ)), ([0, 1], 2)]
        = .ok (.val g) ∧
      mean_average_precision [([(1 : ℚ)], (1 : ℤ)), ([0, 1], 2)] = .ok (.val m) ∧
      g ≤ (m : ℝ) ∧
      (g = (m : ℝ) → ∀ p ∈ [([(1 : ℚ)], (1 : ℤ)), ([0, 1], 2)],
        ∀ r ∈ [([(1 : ℚ)], (1 : ℤ)), ([0, 1], 2)],
          averagePrecisionQ p.1 p.2 = averagePrecisionQ r.1 r.2)) := by
  have hnn : ∀ p ∈ [([(1 : ℚ)], (1 : ℤ)), ([0, 1], 2)],
      0 ≤ averagePrecisionQ p.1 p.2 := by
    intro p hp
    rcases List.mem_cons.1 hp with rfl | hp'
    · norm_num [averagePrecisionQ, npmeanQ, List.range_succ]
    · rw [List.mem_singleton.1 hp']
      norm_num [averagePrecisionQ, npmeanQ, List.range_succ]
  exact ⟨by decide, by decide, hnn,
    gmap_le_map [([(1 : ℚ)], (1 : ℤ)), ([0, 1], 2)] (by decide) (by decide) hnn⟩
